import Mathlib

/-!
Verification of the snapstash backup-artifact engine against its
natural-language specification.

The development shallowly embeds the JavaScript sources:

* src/backup-format.js — binary envelope codec (packBackupBinary /
  unpackBackupBinary), plain/encrypted text codecs and parseBackupText;
* src/config.js — exclude matcher (normalizePattern, normalizeRelPath,
  globToRegExp, buildExcludeMatcher);
* src/restore.js — restore pipeline (assertSafeRepoRelativePath, tryChmod,
  per-item replay of runRestore);
* src/backup.js — collection pipeline (collectFromGitIndex, concurrent and
  sequential variants, with the worker pool of class WorkerPool).

Modelling conventions:

* Node Buffers are lists of byte values (List Nat); a JS string that enters
  the binary codec is represented by its UTF-8 byte list.
* Functions that can throw return Option or Except; `none` / `.error` marks
  the thrown exception.  Node buffer reads that throw ERR_OUT_OF_RANGE are
  `none`; Buffer.prototype.toString / subarray, which silently clamp their
  range to the buffer, are modelled with List.take / List.drop, which clamp
  the same way.
* External primitives that are not part of this repository (brotli and gzip
  from node:zlib, AES-GCM and scrypt from node:crypto) enter as function
  parameters of the embedded definitions.
* Filesystem effects of the restore pipeline are reified as a trace of
  FsOp values in program order; an interpreter applies them to a store.
-/

namespace Snapstash

/-! ## Byte-level primitives of src/backup-format.js

The JS encoder precomputes the total size, allocates one Buffer and then
performs sequential writes at a running offset; this is concatenation of the
chunks written, which is how packBackupBinary is rendered below.  The decoder
keeps a running offset into one buffer; it is rendered in consumption style,
a reader taking the not-yet-consumed suffix and returning the parsed value
together with the remaining suffix.
-/

/-- UTF-8 byte list standing for a JS string inside the binary codec. -/
abbrev ByteStr := List Nat

/-- Big-endian bytes written by buf.writeUInt16BE. -/
def u16Bytes (n : Nat) : List Nat := [n / 256, n % 256]

/-- Big-endian bytes written by buf.writeUInt32BE. -/
def u32Bytes (n : Nat) : List Nat :=
  [n / 16777216, n / 65536 % 256, n / 256 % 256, n % 256]

/-- Model of buf.writeUInt8: Node throws ERR_OUT_OF_RANGE above 0xff. -/
def writeU8 (n : Nat) : Option (List Nat) :=
  if n ≤ 255 then some [n] else none

/-- Model of writeU16 in backup-format.js (writeUInt16BE with bound check). -/
def writeU16 (n : Nat) : Option (List Nat) :=
  if n ≤ 65535 then some (u16Bytes n) else none

/-- Model of writeU32 in backup-format.js (writeUInt32BE with bound check). -/
def writeU32 (n : Nat) : Option (List Nat) :=
  if n ≤ 4294967295 then some (u32Bytes n) else none

/-- Model of writeStringU16: two length bytes then the UTF-8 payload. -/
def writeStringU16 (s : ByteStr) : Option (List Nat) :=
  (writeU16 s.length).map (fun len => len ++ s)

/-- Model of writeStringU8: one length byte then the UTF-8 payload. -/
def writeStringU8 (s : ByteStr) : Option (List Nat) :=
  (writeU8 s.length).map (fun len => len ++ s)

/-- Length-prefixed item blob as written by the item loop of
packBackupBinary (writeU32 of the length, then the raw bytes). -/
def writeBlob (s : ByteStr) : Option (List Nat) :=
  (writeU32 s.length).map (fun len => len ++ s)

/-- Sequential encoding of a list of fields, concatenating the chunks. -/
def writeAll (f : α → Option (List Nat)) : List α → Option (List Nat)
  | [] => some []
  | x :: xs => do
    let hd ← f x
    let tl ← writeAll f xs
    return hd ++ tl

/-- Model of buf.readUInt8: fails (throws) past the end of the buffer. -/
def readU8 : List Nat → Option (Nat × List Nat)
  | [] => none
  | b :: rest => some (b, rest)

/-- Model of readU16 (buf.readUInt16BE plus offset bump). -/
def readU16 : List Nat → Option (Nat × List Nat)
  | b0 :: b1 :: rest => some (b0 * 256 + b1, rest)
  | _ => none

/-- Model of readU32 (buf.readUInt32BE plus offset bump). -/
def readU32 : List Nat → Option (Nat × List Nat)
  | b0 :: b1 :: b2 :: b3 :: rest =>
    some (((b0 * 256 + b1) * 256 + b2) * 256 + b3, rest)
  | _ => none

/-- Model of readStringU16.  Note that buf.toString clamps its end bound to
the buffer length, so a string body cut off by truncation is silently
shortened rather than raising; List.take clamps the same way. -/
def readStringU16 (buf : List Nat) : Option (ByteStr × List Nat) :=
  (readU16 buf).map (fun out => (out.2.take out.1, out.2.drop out.1))

/-- Model of readStringU8, clamping like readStringU16. -/
def readStringU8 (buf : List Nat) : Option (ByteStr × List Nat) :=
  (readU8 buf).map (fun out => (out.2.take out.1, out.2.drop out.1))

/-- Item blob read by the item loop of unpackBackupBinary: readU32 for the
length, then buffer.subarray, which also clamps. -/
def readBlob (buf : List Nat) : Option (ByteStr × List Nat) :=
  (readU32 buf).map (fun out => (out.2.take out.1, out.2.drop out.1))

/-- Counted repetition of a reader, as the for-loops of unpackBackupBinary. -/
def readCount (f : List Nat → Option (α × List Nat)) :
    Nat → List Nat → Option (List α × List Nat)
  | 0, buf => some ([], buf)
  | n + 1, buf => do
    let (x, rest) ← f buf
    let (xs, rest2) ← readCount f n rest
    return (x :: xs, rest2)

/-! ## The Backup record

Field names follow the JS object: version, createdAt, repoRoot, head,
payloadEncoding, source.mode, source.root, source.excludes, data.  Optional
fields (null / undefined in JS) are Option; `data` holds the decoded bytes of
the per-item blobs (the JS object stores them base64-encoded and
packBackupBinary / unpackBackupBinary convert at the boundary, a canonical
bijection). -/
structure Backup where
  version : Nat
  createdAt : ByteStr
  repoRoot : ByteStr
  head : Option ByteStr
  payloadEncoding : ByteStr
  sourceMode : Option ByteStr
  sourceRoot : Option ByteStr
  excludes : Option (List ByteStr)
  data : List ByteStr
deriving Repr, DecidableEq

/-- Model of packBackupBinary (src/backup-format.js lines 51-100).  The JS
function reads absent fields as empty via `|| ""` and the version via
`backup.version || 2`; `none` models the ERR_OUT_OF_RANGE throw of a
bounds-checked write. -/
def packBackupBinary (b : Backup) : Option (List Nat) := do
  let ver ← writeU8 (if b.version = 0 then 2 else b.version)
  let createdAt ← writeStringU16 b.createdAt
  let repoRoot ← writeStringU16 b.repoRoot
  let head ← writeStringU16 (b.head.getD [])
  let payloadEncoding ← writeStringU8 b.payloadEncoding
  let sourceMode ← writeStringU8 (b.sourceMode.getD [])
  let sourceRoot ← writeStringU16 (b.sourceRoot.getD [])
  let excludes := b.excludes.getD []
  let exCount ← writeU16 excludes.length
  let exs ← writeAll writeStringU16 excludes
  let itemCount ← writeU32 b.data.length
  let items ← writeAll writeBlob b.data
  return ver ++ createdAt ++ repoRoot ++ head ++ payloadEncoding ++
    sourceMode ++ sourceRoot ++ exCount ++ exs ++ itemCount ++ items

/-- Model of unpackBackupBinary (src/backup-format.js lines 123-177).
The result fields mirror the returned object literal: head becomes null when
empty (`head || null`), source.mode and source.root become undefined when
empty (`|| undefined`), excludes becomes undefined when the list is empty. -/
def unpackBackupBinary (buf : List Nat) : Option Backup :=
  match readU8 buf with
  | none => none
  | some (version, r1) =>
  match readStringU16 r1 with
  | none => none
  | some (createdAt, r2) =>
  match readStringU16 r2 with
  | none => none
  | some (repoRoot, r3) =>
  match readStringU16 r3 with
  | none => none
  | some (head, r4) =>
  match readStringU8 r4 with
  | none => none
  | some (payloadEncoding, r5) =>
  match readStringU8 r5 with
  | none => none
  | some (sourceMode, r6) =>
  match readStringU16 r6 with
  | none => none
  | some (sourceRoot, r7) =>
  match readU16 r7 with
  | none => none
  | some (exCount, r8) =>
  match readCount readStringU16 exCount r8 with
  | none => none
  | some (excludes, r9) =>
  match readU32 r9 with
  | none => none
  | some (itemCount, r10) =>
  match readCount readBlob itemCount r10 with
  | none => none
  | some (data, _) =>
  some {
    version := version
    createdAt := createdAt
    repoRoot := repoRoot
    head := if head = [] then none else some head
    payloadEncoding := payloadEncoding
    sourceMode := if sourceMode = [] then none else some sourceMode
    sourceRoot := if sourceRoot = [] then none else some sourceRoot
    excludes := if excludes = [] then none else some excludes
    data := data
  }

/-- Well-formedness of a Backup for the round-trip: every length fits its
length prefix, the version byte is in range (nonzero, so that
`backup.version || 2` leaves it unchanged), and the optional fields are in
the canonical form the producer emits (buildBackup in src/backup.js never
sets head, source.mode or source.root to an empty string, and maps an empty
exclude list to undefined). -/
def wfBackup (b : Backup) : Bool :=
  1 ≤ b.version && b.version ≤ 255 &&
  b.createdAt.length ≤ 65535 &&
  b.repoRoot.length ≤ 65535 &&
  (match b.head with
   | none => true
   | some h => !h.isEmpty && h.length ≤ 65535) &&
  b.payloadEncoding.length ≤ 255 &&
  (match b.sourceMode with
   | none => true
   | some m => !m.isEmpty && m.length ≤ 255) &&
  (match b.sourceRoot with
   | none => true
   | some r => !r.isEmpty && r.length ≤ 65535) &&
  (match b.excludes with
   | none => true
   | some l => !l.isEmpty && l.length ≤ 65535 && l.all (fun e => e.length ≤ 65535)) &&
  b.data.length ≤ 4294967295 &&
  b.data.all (fun d => d.length ≤ 4294967295)

/-! ## Reader / writer inversion lemmas -/

/-- Relation: the reader f consumes exactly what the writer w produced. -/
def Reads (f : List Nat → Option (α × List Nat)) (w : α → Option (List Nat)) : Prop :=
  ∀ x c, w x = some c → ∀ rest, f (c ++ rest) = some (x, rest)

/-- Concrete Backup used to instantiate the round-trip theorem. -/
def c1Backup : Backup where
  version := 2
  createdAt := [50, 48]
  repoRoot := [47, 114]
  head := some [97]
  payloadEncoding := [98, 114]
  sourceMode := some [102, 115]
  sourceRoot := some [47, 114]
  excludes := some [[110]]
  data := [[1, 2, 3], [4]]

/-- Smallest valid envelope: version byte, three empty u16 strings, two
empty u8 strings, one empty u16 string, zero excludes, zero items. -/
def c9Buffer : List Nat :=
  [2, 0, 0, 0, 0, 0, 0, 0, 0, 0, 0, 0, 0, 0, 0, 0, 0]

/-- Backup decoded from c9Buffer. -/
def c9Backup : Backup where
  version := 2
  createdAt := []
  repoRoot := []
  head := none
  payloadEncoding := []
  sourceMode := none
  sourceRoot := none
  excludes := none
  data := []

/-! ## Claim C5: truncated buffers

The spec demands that unpackBackupBinary reject every truncated buffer with
a FormatError.  The decoder only inherits the bounds checks of the
fixed-width Buffer reads (readUInt8 / readUInt16BE / readUInt32BE throw
ERR_OUT_OF_RANGE); buf.toString and buf.subarray clamp their ranges, so a
truncation that falls inside a length-prefixed string body or inside the
final item blob is silently absorbed and a Backup with a shortened field is
returned.  The theorem below evaluates the decoder on the failing input:
packing a backup whose single item is the two bytes 65 66 and dropping the
last byte of the buffer yields a successful decode whose item silently lost
a byte. -/

/-- Backup whose packed form, truncated by one byte, is still accepted. -/
def c5Backup : Backup where
  version := 2
  createdAt := []
  repoRoot := []
  head := none
  payloadEncoding := []
  sourceMode := none
  sourceRoot := none
  excludes := none
  data := [[65, 66]]

/-! ## src/config.js: the exclude matcher

JS strings are modelled with Lean String at the interface (the matcher
works on characters, not bytes), while the internals are written over
character lists so that every definition evaluates by plain structural
recursion.  The regular expression produced by globToRegExp is anchored,
escapes every metacharacter, and then turns a double star into a dot-star
(any characters, separator included) and a remaining single star into a
bracket run of non-separator characters; its matching semantics is modelled
by a token list and an executable matcher, with a declarative splitting
semantics proved equivalent. -/

/-- Whitespace recognised by String.prototype.trim (WhiteSpace and
LineTerminator code points). -/
def isJsWhitespace (c : Char) : Bool :=
  let n := c.toNat
  n = 9 || n = 10 || n = 11 || n = 12 || n = 13 || n = 32 || n = 160 ||
  n = 5760 || (8192 ≤ n && n ≤ 8202) || n = 8232 || n = 8233 || n = 8239 ||
  n = 8287 || n = 12288 || n = 65279

/-- Model of String.prototype.trim. -/
def jsTrim (s : List Char) : List Char :=
  ((s.dropWhile isJsWhitespace).reverse.dropWhile isJsWhitespace).reverse

/-- Leading-sequence test (String.prototype.startsWith). -/
def hasPre : List Char → List Char → Bool
  | [], _ => true
  | _ :: _, [] => false
  | a :: as, b :: bs => a = b && hasPre as bs

/-- Trailing-sequence test (String.prototype.endsWith). -/
def hasSuf (suf s : List Char) : Bool :=
  hasPre suf.reverse s.reverse

/-- Model of value.replaceAll of backslash by slash. -/
def replaceBackslashes (l : List Char) : List Char :=
  l.map (fun c => if c = '\\' then '/' else c)

/-- Model of normalizePattern (src/config.js): trim, reject empty, turn
backslashes into slashes, strip a leading dot-slash.  The function also
returns null for non-string input, which the String domain of the model
makes impossible. -/
def normalizePattern (value : String) : Option (List Char) :=
  let p := jsTrim value.toList
  if p = [] then none
  else
    let p2 := replaceBackslashes p
    let p3 := if hasPre ['.', '/'] p2 then p2.drop 2 else p2
    some p3

/-- Model of normalizeExcludes: map normalizePattern and drop falsy results
(the filter(Boolean) drops both null and the empty string a pattern like
"./" normalises to). -/
def normalizeExcludes (excludes : List String) : List (List Char) :=
  excludes.filterMap (fun v =>
    (normalizePattern v).bind (fun p => if p = [] then none else some p))

/-- Splitting on the path separator, the segment view used by Node
path.posix.normalize. -/
def splitSlashGo (cur : List Char) : List Char → List (List Char)
  | [] => [cur.reverse]
  | c :: rest =>
    if c = '/' then cur.reverse :: splitSlashGo [] rest
    else splitSlashGo (c :: cur) rest

/-- Segments of a slash-separated path. -/
def splitSlash (s : List Char) : List (List Char) :=
  splitSlashGo [] s

/-- Segment resolution of Node path.posix.normalize (normalizeString):
empty and dot segments are dropped, a dot-dot segment pops the previous
segment, and is kept only for relative paths when there is nothing left to
pop.  The accumulator holds the resolved segments in reverse. -/
def normSegsGo (allowAboveRoot : Bool) (acc : List (List Char)) :
    List (List Char) → List (List Char)
  | [] => acc.reverse
  | s :: rest =>
    if s = [] || s = ['.'] then normSegsGo allowAboveRoot acc rest
    else if s = ['.', '.'] then
      match acc with
      | [] =>
        if allowAboveRoot then normSegsGo allowAboveRoot [['.', '.']] rest
        else normSegsGo allowAboveRoot [] rest
      | t :: acc2 =>
        if t = ['.', '.'] then
          if allowAboveRoot then normSegsGo allowAboveRoot (s :: acc) rest
          else normSegsGo allowAboveRoot acc rest
        else normSegsGo allowAboveRoot acc2 rest
    else normSegsGo allowAboveRoot (s :: acc) rest

/-- Joining resolved segments with the separator. -/
def joinSlash : List (List Char) → List Char
  | [] => []
  | [s] => s
  | s :: rest => s ++ '/' :: joinSlash rest

/-- Model of Node path.posix.normalize over characters. -/
def posixNormalize (p : List Char) : List Char :=
  if p = [] then ['.']
  else
    let isAbs := hasPre ['/'] p
    let trailing := hasSuf ['/'] p
    let out := joinSlash (normSegsGo (!isAbs) [] (splitSlash p))
    if out = [] then
      if isAbs then ['/'] else if trailing then ['.', '/'] else ['.']
    else
      let out2 := if trailing then out ++ ['/'] else out
      if isAbs then '/' :: out2 else out2

/-- Model of normalizeRelPath (src/config.js): slashes, posix normalize,
strip a leading dot-slash, and a bare dot becomes empty. -/
def normalizeRelPath (value : String) : List Char :=
  let p := replaceBackslashes value.toList
  let p2 := posixNormalize p
  let p3 := if hasPre ['.', '/'] p2 then p2.drop 2 else p2
  if p3 = ['.'] then [] else p3

/-- Tokens of the regular expression built by globToRegExp.  Patterns reach
globToRegExp only after normalizePattern, so they contain no backslash. -/
inductive GTok where
  | lit (c : Char)
  | anySeg
  | anyAll
deriving Repr, DecidableEq

/-- Left-to-right token scan mirroring the two replace passes of
globToRegExp (the double-star replacement runs first and non-overlapping). -/
def globTokens : List Char → List GTok
  | [] => []
  | '*' :: '*' :: rest => GTok.anyAll :: globTokens rest
  | '*' :: rest => GTok.anySeg :: globTokens rest
  | c :: rest => GTok.lit c :: globTokens rest

/-- ECMAScript line terminators (LineTerminator: LF, CR, LS, PS).  The
regular expression built by globToRegExp carries no flags, so its dot —
the image of a double star — matches any character except these, while
the negated class standing for a single star admits them. -/
def isLineTerminator (c : Char) : Bool :=
  c = '\n' || c = '\r' || c.toNat = 8232 || c.toNat = 8233

/-- Executable matcher for the anchored regular expression denoted by a
token list: a star token consumes any split point whose consumed part
avoids the separator, a double-star token (the flagless dot-star) any
split point whose consumed part avoids line terminators. -/
def globMatch : List GTok → List Char → Bool
  | [], s => s.isEmpty
  | .lit _ :: _, [] => false
  | .lit c :: ts, x :: xs => c = x && globMatch ts xs
  | .anySeg :: ts, s =>
    (List.range (s.length + 1)).any
      (fun i => (s.take i).all (fun c => !(c = '/')) && globMatch ts (s.drop i))
  | .anyAll :: ts, s =>
    (List.range (s.length + 1)).any
      (fun i => (s.take i).all (fun c => ! isLineTerminator c) &&
        globMatch ts (s.drop i))

/-- Declarative matching semantics of the token list. -/
inductive GMatches : List GTok → List Char → Prop where
  | nil : GMatches [] []
  | lit {c : Char} {ts : List GTok} {s : List Char} :
      GMatches ts s → GMatches (GTok.lit c :: ts) (c :: s)
  | seg {ts : List GTok} {s : List Char} (pre : List Char)
      (hpre : ∀ c ∈ pre, c ≠ '/') :
      GMatches ts s → GMatches (GTok.anySeg :: ts) (pre ++ s)
  | all {ts : List GTok} {s : List Char} (pre : List Char)
      (hpre : ∀ c ∈ pre, isLineTerminator c = false) :
      GMatches ts s → GMatches (GTok.anyAll :: ts) (pre ++ s)

/-- Single-pattern rule built by buildExcludeMatcher (src/config.js lines
38-48): trailing slash means directory-prefix match, a star means the glob
regular expression, anything else is an exact literal. -/
def matcherRule (pattern : List Char) (p : List Char) : Bool :=
  if hasSuf ['/'] pattern then
    let dirPat := pattern.dropLast
    p = dirPat || hasPre (dirPat ++ ['/']) p
  else if pattern.any (fun c => c = '*') then
    globMatch (globTokens pattern) p
  else p = pattern

/-- Model of buildExcludeMatcher: null for an empty normalised list,
otherwise a predicate normalising the candidate path and testing the rule
list with some(). -/
def buildExcludeMatcher (excludes : List String) : Option (String → Bool) :=
  let list := normalizeExcludes excludes
  if list.isEmpty then none
  else some (fun relPath =>
    list.any (fun pattern => matcherRule pattern (normalizeRelPath relPath)))

/-- Behaviour of the matcher as its callers use it: a null matcher excludes
nothing. -/
def excludeMatches (excludes : List String) (p : String) : Bool :=
  match buildExcludeMatcher excludes with
  | none => false
  | some f => f p

/-! ## Claim C7: exclude matcher semantics

The claim describes the glob branch as a glob in which a star matches any
characters except the path separator — with no separate double-star case.
The code escapes the pattern and replaces a double star first, so a double
star becomes a flagless dot-star: it crosses separators but, unlike the
single star's negated class, stops at line terminators.  The two readings
are formalised side by side and separated by a counterexample. -/

/-- Token scan for the rules exactly as the claim words them: every star
matches any characters except the separator. -/
def claimGlobTokens : List Char → List GTok
  | [] => []
  | '*' :: rest => GTok.anySeg :: claimGlobTokens rest
  | c :: rest => GTok.lit c :: claimGlobTokens rest

/-- Single-pattern rule as the claim words it. -/
def claimRule (pattern : List Char) (p : List Char) : Bool :=
  if hasSuf ['/'] pattern then
    let dirPat := pattern.dropLast
    p = dirPat || hasPre (dirPat ++ ['/']) p
  else if pattern.any (fun c => c = '*') then
    globMatch (claimGlobTokens pattern) p
  else p = pattern

/-- Matcher the claim describes: some pattern matches the normalised path
under the claim rules. -/
def claimMatches (excludes : List String) (p : String) : Bool :=
  (normalizeExcludes excludes).any
    (fun pattern => claimRule pattern (normalizeRelPath p))

/-! ## src/restore.js: the restore pipeline

The per-item replay loop of runRestore is embedded as a pure function that
returns the list of filesystem operations the item performs, in program
order, together with the counter delta or the thrown error.  The decoders
for brotli and gzip content (node:zlib) are function parameters.  Progress
output and console logging are purely observational and are not modelled
(the warn operation stands in for the submodule warning).  Path handling is
the POSIX behaviour of node:path, matching the path.posix calls used by the
source; path.isAbsolute is the POSIX test for a leading slash. -/

/-- Filesystem operation performed by the restore loop. -/
inductive FsOp where
  | remove (p : List Char)
  | mkdirParents (p : List Char)
  | writeFile (p : List Char) (content : List Nat)
  | symlink (target : List Char) (p : List Char)
  | chmod (p : List Char) (mode : Nat)
  | warn (p : List Char)
deriving Repr, DecidableEq

/-- Errors thrown by the per-item replay (the source throws plain Error
values; the constructors follow the distinct messages). -/
inductive RestoreError where
  | emptyPath
  | absolutePath (p : List Char)
  | escapesRoot (p : List Char)
  | symlinkMissingTarget (p : List Char)
  | missingContent (p : List Char)
deriving Repr, DecidableEq

deriving instance DecidableEq for Except

/-- Counters accumulated by runRestore. -/
structure RestoreCounts where
  restored : Nat
  removed : Nat
  skipped : Nat
deriving Repr, DecidableEq

/-- Pointwise sum of counter deltas. -/
def addCounts (a b : RestoreCounts) : RestoreCounts :=
  ⟨a.restored + b.restored, a.removed + b.removed, a.skipped + b.skipped⟩

/-- Model of the ?? operator: the left operand unless it is null or
undefined. -/
def jsCoalesce (a b : Option α) : Option α :=
  match a with
  | some x => some x
  | none => b

/-- Truthiness of an optional string: present and non-empty. -/
def jsTruthy (o : Option String) : Bool :=
  match o with
  | some s => if s = "" then false else true
  | none => false

/-- Model of assertSafeRepoRelativePath (src/restore.js lines 159-167):
reject missing or empty paths, reject absolute paths, then reject a
normalised form escaping the root through a leading dot-dot. -/
def assertSafeRepoRelativePath (p : Option String) :
    Except RestoreError (List Char) :=
  match p with
  | none => .error .emptyPath
  | some s =>
    if s = "" then .error .emptyPath
    else if hasPre ['/'] s.toList then .error (.absolutePath s.toList)
    else
      let normalized := posixNormalize (replaceBackslashes s.toList)
      if hasPre ['.', '.', '/'] normalized ∨ normalized = ['.', '.'] then
        .error (.escapesRoot s.toList)
      else .ok normalized

/-- Model of Node path.resolve for an absolute root and the already-vetted
relative path: join, then resolve segments absolutely. -/
def posixResolve (root : List Char) (rel : List Char) : List Char :=
  let combined := if hasPre ['/'] rel then rel else root ++ '/' :: rel
  '/' :: joinSlash (normSegsGo false [] (splitSlash combined))

/-- Model of Node path.posix.dirname for the separator-normalised absolute
paths produced by posixResolve. -/
def posixDirname (p : List Char) : List Char :=
  let r := p.reverse.dropWhile (fun c => !(c = '/'))
  match r with
  | [] => ['.']
  | _ :: rest =>
    match rest with
    | [] => if hasPre ['/'] p then ['/'] else ['.']
    | _ :: _ => rest.reverse

/-- Sextet value of a base64 character; none marks a character the forgiving
Node decoder skips.  Both the standard and the url-safe alphabets decode. -/
def b64Val (c : Char) : Option Nat :=
  let n := c.toNat
  if 65 ≤ n ∧ n ≤ 90 then some (n - 65)
  else if 97 ≤ n ∧ n ≤ 122 then some (n - 71)
  else if 48 ≤ n ∧ n ≤ 57 then some (n + 4)
  else if c = '+' ∨ c = '-' then some 62
  else if c = '/' ∨ c = '_' then some 63
  else none

/-- Valid sextets of a base64 text, stopping at the first padding sign. -/
def b64Sextets : List Char → List Nat
  | [] => []
  | '=' :: _ => []
  | c :: rest =>
    match b64Val c with
    | some v => v :: b64Sextets rest
    | none => b64Sextets rest

/-- Bytes from sextet groups; a trailing group of two or three sextets
yields one or two bytes, a lone sextet is dropped. -/
def b64Group : List Nat → List Nat
  | a :: b :: c :: d :: rest =>
    (a * 4 + b / 16) :: ((b % 16) * 16 + c / 4) :: ((c % 4) * 64 + d) ::
      b64Group rest
  | [a, b] => [a * 4 + b / 16]
  | [a, b, c] => [a * 4 + b / 16, (b % 16) * 16 + c / 4]
  | _ => []

/-- Model of Buffer.from(text, base64), Node's forgiving decoder. -/
def jsBase64DecodeL (l : List Char) : List Nat :=
  b64Group (b64Sextets l)

/-- String-level entry of the base64 decoder. -/
def jsBase64Decode (s : String) : List Nat :=
  jsBase64DecodeL s.toList

/-- Dynamic item record consumed by the restore loop, with both the short
keys of the version-2 payload and the long legacy keys. -/
structure RItem where
  p : Option String := none
  path : Option String := none
  k : Option String := none
  kind : Option String := none
  o : Option String := none
  oldPath : Option String := none
  sm : Bool := false
  submodule : Bool := false
  m : Option String := none
  mode : Option String := none
  t : Option String := none
  symlinkTarget : Option String := none
  c : Option String := none
  contentBase64 : Option String := none
  ce : Option String := none
deriving Repr, DecidableEq

/-- Model of decodeContent (src/restore.js): base64-decode item.c, then
invert the content encoding; brotli and gzip are the decBr / decGz
parameters. -/
def decodeContent (decBr decGz : List Nat → List Nat) (it : RItem) :
    List Nat :=
  let encoded := jsBase64Decode ((it.c).getD "")
  if it.ce = some "br" then decBr encoded
  else if it.ce = some "gz" then decGz encoded
  else encoded

/-- Model of parseInt(modeStr, 8): leading whitespace, optional sign, then
the longest octal digit run; none models NaN. -/
def jsParseIntOct (s : String) : Option Int :=
  let l := s.toList.dropWhile isJsWhitespace
  let signAndRest : Int × List Char :=
    match l with
    | '-' :: rest => (-1, rest)
    | '+' :: rest => (1, rest)
    | _ => (1, l)
  let ds := signAndRest.2.takeWhile (fun c => 48 ≤ c.toNat && c.toNat ≤ 55)
  if ds = [] then none
  else some (signAndRest.1 *
    ((ds.foldl (fun acc c => acc * 8 + (c.toNat - 48)) 0 : Nat) : Int))

/-- Mode argument passed to fs.chmodSync by tryChmod (src/restore.js lines
181-190), or none when tryChmod returns without calling chmod: a falsy mode
string and an unparsable mode string are ignored.  The JS expression
mode & 511 coerces through ToInt32 and keeps the low nine bits, which for
every integer equals the value modulo 512 (512 divides 2 to the 32). -/
def tryChmodMode (modeStr : Option String) : Option Nat :=
  match modeStr with
  | none => none
  | some s =>
    if s = "" then none
    else
      match jsParseIntOct s with
      | none => none
      | some v => some ((v % 512).toNat)

/-- Path field of an item as the loop reads it (item.p ?? item.path). -/
def itemRawPath (it : RItem) : Option String :=
  jsCoalesce it.p it.path

/-- Old-path cleanup of the loop: only a Rename whose old path is truthy
removes the old path, after the same path-safety validation. -/
def renameCleanupOps (root : List Char) (it : RItem) :
    Except RestoreError (List FsOp) :=
  let kind := jsCoalesce it.k it.kind
  let oldP := jsCoalesce it.o it.oldPath
  if kind = some "R" ∧ jsTruthy oldP = true then
    match assertSafeRepoRelativePath oldP with
    | .error e => .error e
    | .ok oldRel => .ok [FsOp.remove (posixResolve root oldRel)]
  else .ok []

/-- One iteration of the replay loop of runRestore (src/restore.js lines
326-400): validate the path, dispatch on the kind, and emit the filesystem
operations in program order together with the counter delta, or stop with
the thrown error (operations already performed stay in the trace). -/
def processItem (decBr decGz : List Nat → List Nat) (root : List Char)
    (it : RItem) : List FsOp × Except RestoreError RestoreCounts :=
  match assertSafeRepoRelativePath (itemRawPath it) with
  | .error e => ([], .error e)
  | .ok relPath =>
    let absPath := posixResolve root relPath
    let kind := jsCoalesce it.k it.kind
    if kind = some "D" then
      ([FsOp.remove absPath], .ok ⟨0, 1, 0⟩)
    else
      match renameCleanupOps root it with
      | .error e => ([], .error e)
      | .ok preOps =>
        if it.sm || it.submodule then
          (preOps ++ [FsOp.warn relPath], .ok ⟨0, 0, 1⟩)
        else
          let mode := jsCoalesce it.m it.mode
          if mode = some "120000" then
            match jsCoalesce it.t it.symlinkTarget with
            | none => (preOps, .error (.symlinkMissingTarget relPath))
            | some target =>
              (preOps ++ [FsOp.remove absPath,
                FsOp.mkdirParents (posixDirname absPath),
                FsOp.symlink target.toList absPath], .ok ⟨1, 0, 0⟩)
          else
            match jsCoalesce it.c it.contentBase64 with
            | none => (preOps, .error (.missingContent relPath))
            | some cb64 =>
              let content :=
                if jsTruthy it.c then decodeContent decBr decGz it
                else jsBase64Decode cb64
              let chmodOps :=
                match tryChmodMode mode with
                | some mNat => [FsOp.chmod absPath mNat]
                | none => []
              (preOps ++ [FsOp.mkdirParents (posixDirname absPath),
                FsOp.writeFile absPath content] ++ chmodOps, .ok ⟨1, 0, 0⟩)

/-- The replay loop: items are processed left to right, operation traces
accumulate, and the first thrown error aborts the run with the trace
performed so far. -/
def restoreItems (decBr decGz : List Nat → List Nat) (root : List Char) :
    List RItem → List FsOp → RestoreCounts →
      List FsOp × Except RestoreError RestoreCounts
  | [], ops, c => (ops, .ok c)
  | it :: rest, ops, c =>
    match processItem decBr decGz root it with
    | (o, .error e) => (ops ++ o, .error e)
    | (o, .ok c2) => restoreItems decBr decGz root rest (ops ++ o) (addCounts c c2)

/-! ## The filesystem interpreter

Operations are applied to an association store of files and symlinks.
Directories are not modelled (mkdirSync recursive never throws on an
existing directory); fs.rmSync with force ignores a missing target; a
failing fs.chmodSync is modelled by running the interpreter with chmodOk
false, matching the try/catch in tryChmod that swallows the error. -/

/-- Store entry: a regular file with content and optional mode bits, or a
symbolic link. -/
inductive FsEntry where
  | file (content : List Nat) (mode : Option Nat)
  | link (target : List Char)
deriving Repr, DecidableEq

/-- Association store from absolute paths to entries. -/
abbrev FS := List (List Char × FsEntry)

/-- Remove a path if present (fs.rmSync force). -/
def fsRemove (p : List Char) (fs : FS) : FS :=
  fs.filter (fun e => decide (¬ e.1 = p))

/-- Look up a path. -/
def fsGet (p : List Char) (fs : FS) : Option FsEntry :=
  (fs.find? (fun e => decide (e.1 = p))).map Prod.snd

/-- Bind a path to an entry. -/
def fsSet (p : List Char) (e : FsEntry) (fs : FS) : FS :=
  (p, e) :: fsRemove p fs

/-- Apply one operation.  writeFile keeps the mode of an existing file;
chmod updates the mode of an existing file and is a no-op both on a missing
target and when the chmod call fails (chmodOk false). -/
def applyOp (chmodOk : Bool) (fs : FS) : FsOp → FS
  | .remove p => fsRemove p fs
  | .mkdirParents _ => fs
  | .writeFile p content =>
    match fsGet p fs with
    | some (FsEntry.file _ m) => fsSet p (FsEntry.file content m) fs
    | _ => fsSet p (FsEntry.file content none) fs
  | .symlink t p => fsSet p (FsEntry.link t) fs
  | .chmod p m =>
    if chmodOk then
      match fsGet p fs with
      | some (FsEntry.file cnt _) => fsSet p (FsEntry.file cnt (some m)) fs
      | _ => fs
    else fs
  | .warn _ => fs

/-- Apply a trace of operations left to right. -/
def applyOps (chmodOk : Bool) : FS → List FsOp → FS
  | fs, [] => fs
  | fs, op :: rest => applyOps chmodOk (applyOp chmodOk fs op) rest

/-- Content of the regular file at a path, if any. -/
def fsFileContent (p : List Char) (fs : FS) : Option (List Nat) :=
  match fsGet p fs with
  | some (FsEntry.file cnt _) => some cnt
  | _ => none

/-- Delete record escaping the root, as in the spec example. -/
def c2Item : RItem := { k := some "D", p := some "../../etc/passwd" }

/-! ## Claim C6: old-path cleanup for Rename and Copy

The claim says every Rename or Copy carrying an old path has that old path
removed before the new content is written.  The loop guards the cleanup
with kind strictly equal to R, so a Copy record keeps its old path — which
also matches copy semantics, where the source file must survive.  A
counterexample separates the claim from the code, and the amended theorem
establishes the cleanup-first ordering for Rename. -/

/-- Copy record carrying an old path: the claim asserts old.txt is removed
before b.txt is written. -/
def c6CopyItem : RItem :=
  { k := some "C", p := some "b.txt", o := some "old.txt", c := some "" }

/-- Rename record used to instantiate the amended theorem. -/
def c6RenameItem : RItem :=
  { k := some "R", p := some "new.txt", o := some "old.txt", c := some "" }

/-- Regular-file record with a parsable mode (100644 octal is 33188, and
33188 masked to the low nine bits is 420). -/
def c10Item : RItem :=
  { k := some "A", p := some "f.txt", m := some "100644", c := some "" }

/-! ## src/backup-format.js: text codecs and parseBackupText (claim C4)

The plain and encrypted text codecs are embedded over character lists;
brotli decompression and AES-GCM decryption (node:zlib / node:crypto) are
the decBrotli / decrypt parameters, where none models the exception the
primitive throws on invalid input. -/

/-- Errors of the text decoding layer, one constructor per distinct throw
site. -/
inductive ParseError where
  | passwordRequired
  | formatTooShort
  | badMagic
  | unsupportedVersion (v : Nat)
  | missingCiphertext
  | decompressFailed
  | unpackFailed
  | decryptFailed
deriving Repr, DecidableEq

/-- The four magic bytes SSBK. -/
def magicBytes : List Nat := [83, 83, 66, 75]

/-- The literal tag of the plain text format. -/
def plainTag : List Char := ['S', 'S', 'P', '1', ':']

/-- Model of decodePlainFromText: strip the optional tag (or trim when
there is none), base64-decode, decompress, unpack. -/
def decodePlainFromText (decBrotli : List Nat → Option (List Nat))
    (text : List Char) : Except ParseError Backup :=
  let value := if hasPre plainTag text then text.drop 5 else jsTrim text
  let raw := jsBase64DecodeL value
  match decBrotli raw with
  | none => .error .decompressFailed
  | some payload =>
    match unpackBackupBinary payload with
    | none => .error .unpackFailed
    | some b => .ok b

/-- Model of isEncryptedText: at least four decoded bytes equal to the
magic, checked without any password. -/
def isEncryptedText (text : List Char) : Bool :=
  let raw := jsBase64DecodeL (jsTrim text)
  if raw.length < 4 then false
  else decide (raw.take 4 = magicBytes)

/-- Model of decodeEncryptedFromText: fixed 50-byte header (magic, version,
flags, 16-byte salt, 12-byte nonce, 16-byte tag) before the ciphertext;
header violations are distinct errors raised before any decryption attempt;
the flags bit decides whether the decrypted payload is decompressed. -/
def decodeEncryptedFromText (decBrotli : List Nat → Option (List Nat))
    (decrypt : List Nat → List Nat → List Nat → List Nat → String →
      Option (List Nat))
    (text : List Char) (password : String) : Except ParseError Backup :=
  let raw := jsBase64DecodeL (jsTrim text)
  if raw.length < 50 then .error .formatTooShort
  else if ¬ raw.take 4 = magicBytes then .error .badMagic
  else
    let version := (raw.drop 4).headD 0
    if ¬ version = 2 then .error (.unsupportedVersion version)
    else
      let flags := (raw.drop 5).headD 0
      let salt := (raw.drop 6).take 16
      let iv := (raw.drop 22).take 12
      let tag := (raw.drop 34).take 16
      let ciphertext := raw.drop 50
      if ciphertext = [] then .error .missingCiphertext
      else
        match decrypt ciphertext salt iv tag password with
        | none => .error .decryptFailed
        | some decrypted =>
          match (if flags % 2 = 1 then decBrotli decrypted
                 else some decrypted) with
          | none => .error .decompressFailed
          | some payload =>
            match unpackBackupBinary payload with
            | none => .error .unpackFailed
            | some b => .ok b

/-- Model of parseBackupText (src/backup-format.js lines 258-270): tag
first, then the magic sniff with the password requirement, then the plain
fallback. -/
def parseBackupText (decBrotli : List Nat → Option (List Nat))
    (decrypt : List Nat → List Nat → List Nat → List Nat → String →
      Option (List Nat))
    (text : String) (password : Option String) : Except ParseError Backup :=
  let trimmed := jsTrim text.toList
  if hasPre plainTag trimmed then decodePlainFromText decBrotli trimmed
  else if isEncryptedText trimmed then
    if jsTruthy password = false then .error .passwordRequired
    else decodeEncryptedFromText decBrotli decrypt trimmed (password.getD "")
  else decodePlainFromText decBrotli trimmed

/-! ## src/backup.js: the collection pipeline (claim C8)

Two variants of collectFromGitIndex coexist in src/backup.js: the current
concurrent one (lines 430-539), which offloads qualifying compressions to a
WorkerPool and reassembles results by task identity through Promise.all,
and the sequential variant (lines 1236-1308), which compresses inline.
The git subprocess boundary is a GitSource record (staged name-status
entries, index modes from ls-files, blob bytes from git show).  packItem
(JSON + brotli + base64 of one record) and the content compressor
brotliCompressSync are the pack / brotli parameters; the worker
(workers/compress-worker.js) runs the same brotliCompressSync, so pool and
inline compression agree.  The pool is modelled by the submission-order
task list plus an arbitrary completion schedule; each completion resolves
the pending promise of its task id with the compressed payload, so the
value each item receives is independent of the schedule.  Progress and
stats sinks are observational and omitted. -/

/-- One entry of the parsed name-status diff (parseNameStatusZ). -/
structure GitItem where
  status : String
  kind : String
  oldPath : Option String := none
  path : String
deriving Repr, DecidableEq

/-- Boundary to the git subprocesses: the staged diff, the index mode per
path (getIndexEntryMeta, none when ls-files reports nothing), and the blob
bytes per path (git show). -/
structure GitSource where
  staged : List GitItem
  indexMode : String → Option String
  gitShow : String → List Nat

/-- Item record assembled by collectFromGitIndex before packItem.  The t
and c fields hold bytes; the JS object stores t as UTF-8 text and c as
base64, both injective framings. -/
structure GRecord where
  k : String
  p : String
  o : Option String := none
  m : Option String := none
  sm : Bool := false
  t : Option (List Nat) := none
  ce : Option String := none
  c : Option (List Nat) := none
deriving Repr, DecidableEq

/-- Exclusion filter applied to the staged list (identical in both
variants): an item is dropped when the matcher matches its path, or when it
has a truthy old path the matcher matches. -/
def keepItem (f : String → Bool) (item : GitItem) : Bool :=
  if f item.path then false
  else if jsTruthy item.oldPath && f (item.oldPath.getD "") then false
  else true

/-- The filtered staged list. -/
def filterStaged (matcher : Option (String → Bool))
    (staged : List GitItem) : List GitItem :=
  match matcher with
  | none => staged
  | some f => staged.filter (keepItem f)

/-- Concurrency settings of resolveConcurrencyConfig (threads are part of
the pool model, not of the output). -/
structure ConcurrencyConfig where
  enabled : Bool
  threads : Nat
  bigFileMB : Nat
  fileCountThreshold : Nat
deriving Repr, DecidableEq

/-- Blob bytes of an item that reaches the content-compression branch:
deletes, submodules and symlinks never compress. -/
def itemContentForPool (src : GitSource) (item : GitItem) :
    Option (List Nat) :=
  if item.kind = "D" then none
  else
    let m := src.indexMode item.path
    if m = some "160000" then none
    else if m = some "120000" then none
    else some (src.gitShow item.path)

/-- Pool dispatch test of the concurrent variant: concurrency enabled and
either the count threshold was crossed for the whole run or this content
crosses the big-file threshold. -/
def usesPool (cfg : ConcurrencyConfig) (usePoolByCount : Bool)
    (content : List Nat) : Bool :=
  cfg.enabled && (usePoolByCount ||
    decide (cfg.bigFileMB * 1048576 ≤ content.length))

/-- Payloads submitted to the pool, in submission order (each async map
body runs synchronously up to its await, so submission order is the
filtered order restricted to qualifying items); task ids are 1-based as
produced by ++taskId. -/
def poolTaskPayloads (src : GitSource) (cfg : ConcurrencyConfig)
    (usePoolByCount : Bool) (items : List GitItem) : List (List Nat) :=
  items.filterMap (fun item =>
    (itemContentForPool src item).bind (fun content =>
      if usesPool cfg usePoolByCount content then some content else none))

/-- Resolution of one task id: the schedule lists completions in an
arbitrary order; each completion message carries its task id and the
compressed payload, and resolves the matching pending promise
(WorkerPool.spawnWorker message handler). -/
def poolResolve (brotli : List Nat → List Nat) (payloads : List (List Nat))
    (schedule : List Nat) (id : Nat) : Option (List Nat) :=
  ((schedule.map (fun i => (i, (payloads.get? (i - 1)).map brotli))).find?
    (fun e => decide (e.1 = id))).bind Prod.snd

/-- Model of the sequential collectFromGitIndex (src/backup.js lines
1236-1308): one record per filtered item, compression always inline. -/
def collectFromGitIndexSequential (pack : GRecord → String)
    (brotli : List Nat → List Nat) (src : GitSource)
    (matcher : Option (String → Bool)) : List String :=
  (filterStaged matcher src.staged).map (fun item =>
    let record0 : GRecord :=
      { k := item.kind, p := item.path,
        o := if jsTruthy item.oldPath then item.oldPath else none }
    if item.kind = "D" then pack record0
    else
      let record1 :=
        match src.indexMode item.path with
        | some mode => { record0 with m := some mode }
        | none => record0
      if record1.m = some "160000" then pack { record1 with sm := true }
      else
        let content := src.gitShow item.path
        if record1.m = some "120000" then pack { record1 with t := some content }
        else pack { record1 with
                    ce := some "br", c := some (brotli content) })

/-- Item loop of the concurrent collectFromGitIndex, with the next task id
threaded through; an awaited task that never completes leaves the
Promise.all pending, modelled as none. -/
def collectConcGo (pack : GRecord → String) (brotli : List Nat → List Nat)
    (src : GitSource) (cfg : ConcurrencyConfig) (usePoolByCount : Bool)
    (payloads : List (List Nat)) (schedule : List Nat) :
    List GitItem → Nat → Option (List String)
  | [], _ => some []
  | item :: rest, nextId =>
    let record0 : GRecord :=
      { k := item.kind, p := item.path,
        o := if jsTruthy item.oldPath then item.oldPath else none }
    if item.kind = "D" then
      (collectConcGo pack brotli src cfg usePoolByCount payloads schedule
        rest nextId).map (fun tl => pack record0 :: tl)
    else
      let record1 :=
        match src.indexMode item.path with
        | some mode => { record0 with m := some mode }
        | none => record0
      if record1.m = some "160000" then
        (collectConcGo pack brotli src cfg usePoolByCount payloads schedule
          rest nextId).map (fun tl => pack { record1 with sm := true } :: tl)
      else
        let content := src.gitShow item.path
        if record1.m = some "120000" then
          (collectConcGo pack brotli src cfg usePoolByCount payloads schedule
            rest nextId).map
            (fun tl => pack { record1 with t := some content } :: tl)
        else
          if usesPool cfg usePoolByCount content then
            match poolResolve brotli payloads schedule nextId with
            | none => none
            | some compressed =>
              (collectConcGo pack brotli src cfg usePoolByCount payloads
                schedule rest (nextId + 1)).map
                (fun tl =>
                  pack { record1 with
                         ce := some "br", c := some compressed } :: tl)
          else
            (collectConcGo pack brotli src cfg usePoolByCount payloads
              schedule rest nextId).map
              (fun tl =>
                pack { record1 with
                       ce := some "br", c := some (brotli content) } :: tl)

/-- Model of the concurrent collectFromGitIndex (src/backup.js lines
430-539): same filter, records assembled per item, qualifying content
compressed through the pool and reattached by task id. -/
def collectFromGitIndexConcurrent (pack : GRecord → String)
    (brotli : List Nat → List Nat) (src : GitSource)
    (matcher : Option (String → Bool)) (cfg : ConcurrencyConfig)
    (schedule : List Nat) : Option (List String) :=
  let filtered := filterStaged matcher src.staged
  let usePoolByCount := cfg.enabled &&
    decide (cfg.fileCountThreshold ≤ filtered.length)
  let payloads := poolTaskPayloads src cfg usePoolByCount filtered
  collectConcGo pack brotli src cfg usePoolByCount payloads schedule
    filtered 1

/-- Git source with two staged regular files used by the C8 witness. -/
def c8Source : GitSource where
  staged := [{ status := "A", kind := "A", path := "a.txt" },
    { status := "M", kind := "M", path := "b.txt" }]
  indexMode := fun _ => some "100644"
  gitShow := fun p => p.toList.map Char.toNat

/-- Pool settings that send both files through the worker pool. -/
def c8Config : ConcurrencyConfig where
  enabled := true
  threads := 2
  bigFileMB := 1
  fileCountThreshold := 1

/-! ## Theorems -/

theorem readU16_u16Bytes (n : Nat) (hn : n ≤ 65535) (rest : List Nat) :
    readU16 (u16Bytes n ++ rest) = some (n, rest) := by
  simp only [u16Bytes, List.cons_append, List.nil_append, readU16,
    Option.some.injEq, Prod.mk.injEq]
  exact ⟨by omega, trivial⟩

theorem readU32_u32Bytes (n : Nat) (hn : n ≤ 4294967295) (rest : List Nat) :
    readU32 (u32Bytes n ++ rest) = some (n, rest) := by
  simp only [u32Bytes, List.cons_append, List.nil_append, readU32,
    Option.some.injEq, Prod.mk.injEq]
  exact ⟨by omega, trivial⟩

theorem reads_stringU16 : Reads readStringU16 writeStringU16 := by
  intro s c hw rest
  by_cases h : s.length ≤ 65535
  · simp only [writeStringU16, writeU16, if_pos h, Option.map_some',
      Option.some.injEq] at hw
    subst hw
    rw [List.append_assoc, readStringU16, readU16_u16Bytes s.length h]
    simp [List.take_left, List.drop_left]
  · simp [writeStringU16, writeU16, if_neg h] at hw

theorem reads_stringU8 : Reads readStringU8 writeStringU8 := by
  intro s c hw rest
  by_cases h : s.length ≤ 255
  · simp only [writeStringU8, writeU8, if_pos h, Option.map_some',
      Option.some.injEq] at hw
    subst hw
    simp only [List.append_assoc, List.cons_append, List.nil_append]
    rw [readStringU8, readU8]
    simp [List.take_left, List.drop_left]
  · simp [writeStringU8, writeU8, if_neg h] at hw

theorem reads_blob : Reads readBlob writeBlob := by
  intro s c hw rest
  by_cases h : s.length ≤ 4294967295
  · simp only [writeBlob, writeU32, if_pos h, Option.map_some',
      Option.some.injEq] at hw
    subst hw
    rw [List.append_assoc, readBlob, readU32_u32Bytes s.length h]
    simp [List.take_left, List.drop_left]
  · simp [writeBlob, writeU32, if_neg h] at hw

theorem readCount_writeAll {f : List Nat → Option (α × List Nat)}
    {w : α → Option (List Nat)} (h : Reads f w) :
    ∀ (l : List α) (c : List Nat), writeAll w l = some c →
      ∀ rest, readCount f l.length (c ++ rest) = some (l, rest) := by
  intro l
  induction l with
  | nil =>
    intro c hw rest
    simp only [writeAll] at hw
    cases hw
    rfl
  | cons x xs ih =>
    intro c hw rest
    simp only [writeAll, Option.bind_eq_bind, Option.bind_eq_some] at hw
    obtain ⟨hd, hhd, tl, htl, hc⟩ := hw
    cases hc
    simp only [List.length_cons, readCount, Option.bind_eq_bind, List.append_assoc]
    rw [h x hd hhd (tl ++ rest)]
    simp only [Option.some_bind]
    rw [ih tl htl rest]
    rfl

theorem writeAll_isSome (w : α → Option (List Nat)) :
    ∀ (l : List α), (∀ x ∈ l, (w x).isSome) → (writeAll w l).isSome := by
  intro l
  induction l with
  | nil => intro _; rfl
  | cons x xs ih =>
    intro hall
    have hx := hall x (by simp)
    obtain ⟨cx, hcx⟩ := Option.isSome_iff_exists.mp hx
    obtain ⟨cxs, hcxs⟩ := Option.isSome_iff_exists.mp (ih (fun y hy => hall y (by simp [hy])))
    simp [writeAll, hcx, hcxs]

/-- Normalisation of an optional list field: re-reading the packed empty
default gives back the original optional value as long as it was not an
explicitly-present empty value. -/
theorem norm_getD_empty {α : Type} [DecidableEq α] (o : Option (List α))
    (ho : o ≠ some []) :
    (if o.getD [] = [] then none else some (o.getD [])) = o := by
  cases o with
  | none => simp
  | some l =>
    have hl : l ≠ [] := fun h => ho (by rw [h])
    simp [Option.getD_some, hl]

/-! ## Claim C1: binary envelope round-trip -/

/-- C1.  For every well-formed Backup with non-empty items,
unpackBackupBinary inverts packBackupBinary exactly, field for field.  The
wfBackup hypothesis records the length bounds imposed by the binary layout
and the canonical shape the producer (buildBackup) emits for the optional
fields: head is null or a non-empty string, source.mode / source.root are
absent or non-empty, and an empty exclude list is stored as undefined.  On
this domain the round-trip is exact, which is stronger than the claim (the
deviation the claim allows never materialises). -/
theorem pack_unpack_roundTrip (b : Backup) (hwf : wfBackup b = true)
    (hne : b.data ≠ []) :
    (packBackupBinary b).bind unpackBackupBinary = some b := by
  simp only [wfBackup, Bool.and_eq_true, decide_eq_true_eq] at hwf
  obtain ⟨⟨⟨⟨⟨⟨⟨⟨⟨⟨h1, h2⟩, h3⟩, h4⟩, h5⟩, h6⟩, h7⟩, h8⟩, h9⟩, h10⟩, h11⟩ := hwf
  -- facts about the optional fields
  have hhdne : b.head ≠ some [] := by
    intro h
    rw [h] at h5
    simp at h5
  have hhdlen : (b.head.getD []).length ≤ 65535 := by
    cases hh : b.head with
    | none => simp
    | some s =>
      rw [hh] at h5
      simp only [Bool.and_eq_true, decide_eq_true_eq] at h5
      simpa using h5.2
  have hsmne : b.sourceMode ≠ some [] := by
    intro h
    rw [h] at h7
    simp at h7
  have hsmlen : (b.sourceMode.getD []).length ≤ 255 := by
    cases hh : b.sourceMode with
    | none => simp
    | some s =>
      rw [hh] at h7
      simp only [Bool.and_eq_true, decide_eq_true_eq] at h7
      simpa using h7.2
  have hsrne : b.sourceRoot ≠ some [] := by
    intro h
    rw [h] at h8
    simp at h8
  have hsrlen : (b.sourceRoot.getD []).length ≤ 65535 := by
    cases hh : b.sourceRoot with
    | none => simp
    | some s =>
      rw [hh] at h8
      simp only [Bool.and_eq_true, decide_eq_true_eq] at h8
      simpa using h8.2
  have hexne : b.excludes ≠ some [] := by
    intro h
    rw [h] at h9
    simp at h9
  have hexlen : (b.excludes.getD []).length ≤ 65535 := by
    cases hh : b.excludes with
    | none => simp
    | some l =>
      rw [hh] at h9
      simp only [Bool.and_eq_true, decide_eq_true_eq] at h9
      simpa using h9.1.2
  have hexall : ∀ e ∈ b.excludes.getD [], e.length ≤ 65535 := by
    cases hh : b.excludes with
    | none => simp
    | some l =>
      rw [hh] at h9
      simp only [Bool.and_eq_true, decide_eq_true_eq, List.all_eq_true] at h9
      simpa using h9.2
  have hdall : ∀ d ∈ b.data, d.length ≤ 4294967295 := by
    simp only [List.all_eq_true, decide_eq_true_eq] at h11
    exact h11
  -- each write of the encoder succeeds
  have hver : writeU8 (if b.version = 0 then 2 else b.version) = some [b.version] := by
    have hz : ¬ b.version = 0 := by omega
    simp [writeU8, hz, h2]
  have hca : writeStringU16 b.createdAt =
      some (u16Bytes b.createdAt.length ++ b.createdAt) := by
    simp [writeStringU16, writeU16, h3]
  have hrr : writeStringU16 b.repoRoot =
      some (u16Bytes b.repoRoot.length ++ b.repoRoot) := by
    simp [writeStringU16, writeU16, h4]
  have hhd : writeStringU16 (b.head.getD []) =
      some (u16Bytes (b.head.getD []).length ++ b.head.getD []) := by
    simp [writeStringU16, writeU16, hhdlen]
  have hpe : writeStringU8 b.payloadEncoding =
      some ([b.payloadEncoding.length] ++ b.payloadEncoding) := by
    simp [writeStringU8, writeU8, h6]
  have hsm : writeStringU8 (b.sourceMode.getD []) =
      some ([(b.sourceMode.getD []).length] ++ b.sourceMode.getD []) := by
    simp [writeStringU8, writeU8, hsmlen]
  have hsr : writeStringU16 (b.sourceRoot.getD []) =
      some (u16Bytes (b.sourceRoot.getD []).length ++ b.sourceRoot.getD []) := by
    simp [writeStringU16, writeU16, hsrlen]
  have hexc : writeU16 (b.excludes.getD []).length =
      some (u16Bytes (b.excludes.getD []).length) := by
    simp [writeU16, hexlen]
  obtain ⟨exs, hexs⟩ := Option.isSome_iff_exists.mp
    (writeAll_isSome writeStringU16 (b.excludes.getD []) (fun e he => by
      simp [writeStringU16, writeU16, hexall e he]))
  have hitc : writeU32 b.data.length = some (u32Bytes b.data.length) := by
    simp [writeU32, h10]
  obtain ⟨its, hits⟩ := Option.isSome_iff_exists.mp
    (writeAll_isSome writeBlob b.data (fun d hd => by
      simp [writeBlob, writeU32, hdall d hd]))
  -- the encoder output is the concatenation of the chunks
  have hpack : packBackupBinary b =
      some ([b.version] ++ (u16Bytes b.createdAt.length ++ b.createdAt) ++
        (u16Bytes b.repoRoot.length ++ b.repoRoot) ++
        (u16Bytes (b.head.getD []).length ++ b.head.getD []) ++
        ([b.payloadEncoding.length] ++ b.payloadEncoding) ++
        ([(b.sourceMode.getD []).length] ++ b.sourceMode.getD []) ++
        (u16Bytes (b.sourceRoot.getD []).length ++ b.sourceRoot.getD []) ++
        u16Bytes (b.excludes.getD []).length ++ exs ++
        u32Bytes b.data.length ++ its) := by
    simp [packBackupBinary, hver, hca, hrr, hhd, hpe, hsm, hsr, hexc, hexs,
      hitc, hits]
  -- the decoder consumes the chunks one by one
  rw [hpack, Option.some_bind]
  have rca := reads_stringU16 b.createdAt _ hca
  have rrr := reads_stringU16 b.repoRoot _ hrr
  have rhd := reads_stringU16 (b.head.getD []) _ hhd
  have rpe := reads_stringU8 b.payloadEncoding _ hpe
  have rsm := reads_stringU8 (b.sourceMode.getD []) _ hsm
  have rsr := reads_stringU16 (b.sourceRoot.getD []) _ hsr
  have rexs := readCount_writeAll reads_stringU16 (b.excludes.getD []) exs hexs
  have rits := readCount_writeAll reads_blob b.data its hits
  have rits0 : readCount readBlob b.data.length its = some (b.data, []) := by
    have := rits []
    simpa using this
  simp only [List.append_assoc, List.singleton_append, List.cons_append,
    List.nil_append] at rca rrr rhd rpe rsm rsr rexs rits0 ⊢
  have rexc := readU16_u16Bytes (b.excludes.getD []).length hexlen
  have ritc := readU32_u32Bytes b.data.length h10
  simp only [List.append_assoc] at rexc ritc
  simp only [unpackBackupBinary, readU8, Option.bind_eq_bind', Option.some_bind,
    rca, rrr, rhd, rpe, rsm, rsr, rexc, rexs, ritc, rits0]
  simp only [Option.some_bind, Option.pure_def, Option.some.injEq]
  rw [norm_getD_empty b.head hhdne, norm_getD_empty b.sourceMode hsmne,
    norm_getD_empty b.sourceRoot hsrne, norm_getD_empty b.excludes hexne]

/-- Witness for C1: the round-trip theorem applied at a concrete Backup. -/
theorem pack_unpack_roundTrip_witness :
    wfBackup c1Backup = true ∧ c1Backup.data ≠ [] ∧
      (packBackupBinary c1Backup).bind unpackBackupBinary = some c1Backup :=
  ⟨by decide, by decide, pack_unpack_roundTrip c1Backup (by decide) (by decide)⟩

/-! ## Claim C9: optional fields decoded by unpackBackupBinary are
canonical -/

/-- C9.  For every input buffer, a Backup returned by unpackBackupBinary has
head equal to null or a non-empty string (an empty encoded head decodes to
null, never to the empty string), and empty source mode / source root /
exclude list decode to absent fields, never to empty ones. -/
theorem unpack_optional_fields_normalized (buf : List Nat) (b : Backup)
    (h : unpackBackupBinary buf = some b) :
    b.head ≠ some [] ∧ b.sourceMode ≠ some [] ∧ b.sourceRoot ≠ some [] ∧
      b.excludes ≠ some [] := by
  unfold unpackBackupBinary at h
  repeat' split at h
  all_goals first
  | exact Option.noConfusion h
  | (cases h; refine ⟨?_, ?_, ?_, ?_⟩ <;> simp_all)

/-- Witness for C9: the invariant theorem applied at a concrete buffer. -/
theorem unpack_optional_fields_normalized_witness :
    unpackBackupBinary c9Buffer = some c9Backup ∧
      (c9Backup.head ≠ some [] ∧ c9Backup.sourceMode ≠ some [] ∧
        c9Backup.sourceRoot ≠ some [] ∧ c9Backup.excludes ≠ some []) :=
  ⟨by decide, unpack_optional_fields_normalized c9Buffer c9Backup (by decide)⟩

/-- C5 (failing-input evaluation).  The one-byte truncation of the packed
c5Backup is a proper prefix, yet unpackBackupBinary returns a Backup (with
the last item clamped to a single byte) instead of raising any error. -/
theorem unpack_accepts_truncated_buffer :
    (packBackupBinary c5Backup).map
        (fun buf => unpackBackupBinary buf.dropLast) =
      some (some { c5Backup with data := [[65]] }) := by
  decide

/-- The executable matcher agrees with the declarative semantics. -/
theorem globMatch_iff (ts : List GTok) (s : List Char) :
    globMatch ts s = true ↔ GMatches ts s := by
  induction ts generalizing s with
  | nil =>
    constructor
    · intro h
      have hs : s = [] := by
        cases s with
        | nil => rfl
        | cons x xs => simp [globMatch] at h
      rw [hs]
      exact GMatches.nil
    · intro h
      cases h
      rfl
  | cons t ts ih =>
    cases t with
    | lit c =>
      constructor
      · intro h
        cases s with
        | nil => simp [globMatch] at h
        | cons x xs =>
          simp only [globMatch, Bool.and_eq_true, decide_eq_true_eq] at h
          rw [← h.1]
          exact GMatches.lit ((ih xs).mp h.2)
      · intro h
        cases h with
        | lit hm => simp [globMatch, (ih _).mpr hm]
    | anySeg =>
      constructor
      · intro h
        simp only [globMatch, List.any_eq_true, List.mem_range,
          Bool.and_eq_true, List.all_eq_true, Bool.not_eq_true'] at h
        obtain ⟨i, _, hpre, hm⟩ := h
        have hs : s = s.take i ++ s.drop i := (List.take_append_drop i s).symm
        rw [hs]
        refine GMatches.seg (s.take i) ?_ ((ih _).mp hm)
        intro c hc
        have hc2 := hpre c hc
        simp only [decide_eq_false_iff_not] at hc2
        exact hc2
      · intro h
        cases h with
        | seg pre hpre hm =>
          simp only [globMatch, List.any_eq_true, List.mem_range]
          refine ⟨pre.length, by simp only [List.length_append]; omega, ?_⟩
          simp only [List.take_left, List.drop_left, Bool.and_eq_true,
            List.all_eq_true, Bool.not_eq_true']
          constructor
          · intro c hc
            simp [hpre c hc]
          · exact (ih _).mpr hm
    | anyAll =>
      constructor
      · intro h
        simp only [globMatch, List.any_eq_true, List.mem_range,
          Bool.and_eq_true, List.all_eq_true, Bool.not_eq_true'] at h
        obtain ⟨i, _, hpre, hm⟩ := h
        have hs : s = s.take i ++ s.drop i := (List.take_append_drop i s).symm
        rw [hs]
        exact GMatches.all (s.take i) hpre ((ih _).mp hm)
      · intro h
        cases h with
        | all pre hpre hm =>
          simp only [globMatch, List.any_eq_true, List.mem_range]
          refine ⟨pre.length, by simp only [List.length_append]; omega, ?_⟩
          simp only [List.take_left, List.drop_left, Bool.and_eq_true,
            List.all_eq_true, Bool.not_eq_true']
          exact ⟨hpre, (ih _).mpr hm⟩

/-- Distinguishing consequence of the flagless regular expression: the
double star (dot-star) cannot consume a newline, while the single star
(negated separator class) can. -/
theorem doubleStar_stops_at_newline :
    excludeMatches ["a**b"] "a\nb" = false ∧
      excludeMatches ["a*b"] "a\nb" = true := by
  decide

/-- Counterexample to C7 as stated: the matcher built for the single
pattern a-star-star-b matches the path a/b (its double star crosses the
separator), while under the claim rules no star may consume the separator,
so the claimed equivalence fails at this input. -/
theorem exclude_claim_star_counterexample :
    excludeMatches ["a**b"] "a/b" = true ∧
      claimMatches ["a**b"] "a/b" = false := by
  decide

/-- C7 (amended).  The matcher built from a pattern list matches a path iff
some normalised pattern matches the normalised path under the rules the
claim states, with one correction: a double star in a pattern matches any
characters other than line terminators, the separator included (it becomes
the flagless dot-star), while a single star matches any characters except
the separator, line terminators included (it becomes a negated class). -/
theorem excludeMatcher_semantics (excludes : List String) (p : String) :
    excludeMatches excludes p = true ↔
      ∃ pat ∈ normalizeExcludes excludes,
        (if hasSuf ['/'] pat then
          normalizeRelPath p = pat.dropLast ∨
            hasPre (pat.dropLast ++ ['/']) (normalizeRelPath p) = true
        else if '*' ∈ pat then
          GMatches (globTokens pat) (normalizeRelPath p)
        else normalizeRelPath p = pat) := by
  unfold excludeMatches buildExcludeMatcher
  by_cases he : (normalizeExcludes excludes).isEmpty
  · rw [if_pos he]
    rw [List.isEmpty_iff] at he
    simp [he]
  · rw [if_neg he]
    simp only [List.any_eq_true]
    apply exists_congr
    intro pat
    apply and_congr_right
    intro _
    unfold matcherRule
    by_cases h1 : hasSuf ['/'] pat
    · simp [h1]
    · rw [if_neg h1, if_neg h1]
      by_cases h2 : '*' ∈ pat
      · have h2b : (pat.any fun c => c = '*') = true := by
          simp only [List.any_eq_true, decide_eq_true_eq]
          exact ⟨'*', h2, rfl⟩
        rw [if_pos h2b, if_pos h2]
        exact globMatch_iff _ _
      · have h2b : (pat.any fun c => c = '*') = false := by
          rw [Bool.eq_false_iff]
          intro hany
          simp only [List.any_eq_true, decide_eq_true_eq] at hany
          obtain ⟨c, hc, rfl⟩ := hany
          exact h2 hc
        have h2n : ¬ ((pat.any fun c => c = '*') = true) := by
          rw [h2b]
          exact Bool.false_ne_true
        rw [if_neg h2n, if_neg h2]
        simp

/-- Witness instantiating the amended equivalence at a concrete pattern
list and path with all three rule shapes present. -/
theorem excludeMatcher_semantics_witness :
    excludeMatches ["dist/", "*.log", "exact.txt"] "dist/x.js" = true ↔
      ∃ pat ∈ normalizeExcludes ["dist/", "*.log", "exact.txt"],
        (if hasSuf ['/'] pat then
          normalizeRelPath "dist/x.js" = pat.dropLast ∨
            hasPre (pat.dropLast ++ ['/'])
              (normalizeRelPath "dist/x.js") = true
        else if '*' ∈ pat then
          GMatches (globTokens pat) (normalizeRelPath "dist/x.js")
        else normalizeRelPath "dist/x.js" = pat) :=
  excludeMatcher_semantics ["dist/", "*.log", "exact.txt"] "dist/x.js"

theorem applyOps_append (chmodOk : Bool) (a b : List FsOp) :
    ∀ fs : FS, applyOps chmodOk fs (a ++ b) =
      applyOps chmodOk (applyOps chmodOk fs a) b := by
  induction a with
  | nil => intro fs; rfl
  | cons op rest ih => intro fs; exact ih (applyOp chmodOk fs op)

theorem fsGet_fsSet_self (p : List Char) (e : FsEntry) (fs : FS) :
    fsGet p (fsSet p e fs) = some e := by
  simp [fsGet, fsSet, List.find?]

/-! ## Claim C2: path safety -/

/-- Processing any item whose raw path is absolute, or whose normalised
form escapes the root through a leading dot-dot, stops with the
path-safety error before emitting a single filesystem operation; the
dispatch on the item kind (including Delete) comes only after the check. -/
theorem processItem_unsafe_path (decBr decGz : List Nat → List Nat)
    (root : List Char) (it : RItem) (s : String)
    (hp : itemRawPath it = some s) (hs : ¬ s = "")
    (hbad : hasPre ['/'] s.toList = true ∨
      hasPre ['.', '.', '/'] (posixNormalize (replaceBackslashes s.toList)) = true ∨
      posixNormalize (replaceBackslashes s.toList) = ['.', '.']) :
    processItem decBr decGz root it =
      ([], .error (if hasPre ['/'] s.toList then
        RestoreError.absolutePath s.toList else
        RestoreError.escapesRoot s.toList)) := by
  have hsafe : assertSafeRepoRelativePath (itemRawPath it) =
      .error (if hasPre ['/'] s.toList then
        RestoreError.absolutePath s.toList else
        RestoreError.escapesRoot s.toList) := by
    rw [hp]
    simp only [assertSafeRepoRelativePath, String.toList]
    rw [if_neg hs]
    by_cases habs : hasPre ['/'] s.data = true
    · rw [if_pos habs, if_pos habs]
    · have hesc : hasPre ['.', '.', '/']
          (posixNormalize (replaceBackslashes s.data)) = true ∨
          posixNormalize (replaceBackslashes s.data) = ['.', '.'] := by
        rcases hbad with h | h | h
        · exact absurd h habs
        · exact Or.inl h
        · exact Or.inr h
      rw [if_neg habs, if_pos hesc, if_neg habs]
  unfold processItem
  rw [hsafe]

theorem restoreItems_ok_append (decBr decGz : List Nat → List Nat)
    (root : List Char) :
    ∀ (pre : List RItem) (ops0 ops : List FsOp) (c0 c : RestoreCounts),
      restoreItems decBr decGz root pre ops0 c0 = (ops, .ok c) →
      ∀ more, restoreItems decBr decGz root (pre ++ more) ops0 c0 =
        restoreItems decBr decGz root more ops c := by
  intro pre
  induction pre with
  | nil =>
    intro ops0 ops c0 c h more
    simp only [restoreItems, Prod.mk.injEq, Except.ok.injEq] at h
    rw [List.nil_append, h.1, h.2]
  | cons it rest ih =>
    intro ops0 ops c0 c h more
    simp only [restoreItems, List.cons_append] at h ⊢
    cases hpi : processItem decBr decGz root it with
    | mk o r =>
      rw [hpi] at h
      cases r with
      | error e => simp at h
      | ok c2 => exact ih (ops0 ++ o) ops (addCounts c0 c2) c h more

/-- C2.  Appending an item whose path (for every kind, Delete included) is
absolute or escapes the restore root to any successfully replayed prefix
aborts the pipeline with the path-safety error, and the operation trace is
exactly that of the prefix: nothing is written or removed for the unsafe
item. -/
theorem restore_path_safety (decBr decGz : List Nat → List Nat)
    (root : List Char) (pre : List RItem) (it : RItem) (s : String)
    (hp : itemRawPath it = some s) (hs : ¬ s = "")
    (hbad : hasPre ['/'] s.toList = true ∨
      hasPre ['.', '.', '/'] (posixNormalize (replaceBackslashes s.toList)) = true ∨
      posixNormalize (replaceBackslashes s.toList) = ['.', '.'])
    (ops : List FsOp) (c : RestoreCounts)
    (hpre : restoreItems decBr decGz root pre [] ⟨0, 0, 0⟩ = (ops, .ok c)) :
    restoreItems decBr decGz root (pre ++ [it]) [] ⟨0, 0, 0⟩ =
      (ops, .error (if hasPre ['/'] s.toList then
        RestoreError.absolutePath s.toList else
        RestoreError.escapesRoot s.toList)) := by
  rw [restoreItems_ok_append decBr decGz root pre [] ops ⟨0, 0, 0⟩ c hpre [it]]
  simp [restoreItems, processItem_unsafe_path decBr decGz root it s hp hs hbad]

/-- Witness for C2: one prior benign Delete item is replayed, then the
escaping Delete aborts with the path-safety error and contributes no
operation. -/
theorem restore_path_safety_witness :
    restoreItems (fun b => b) (fun b => b) ['/', 'r']
        [{ k := some "D", p := some "x.txt" }, c2Item] [] ⟨0, 0, 0⟩ =
      ([FsOp.remove (posixResolve ['/', 'r'] ['x', '.', 't', 'x', 't'])],
        .error (RestoreError.escapesRoot ("../../etc/passwd".toList))) := by
  have h := restore_path_safety (fun b => b) (fun b => b) ['/', 'r']
    [{ k := some "D", p := some "x.txt" }] c2Item "../../etc/passwd"
    (by decide) (by decide) (by decide)
    [FsOp.remove (posixResolve ['/', 'r'] ['x', '.', 't', 'x', 't'])]
    ⟨0, 1, 0⟩ (by decide)
  simpa using h

/-- Counterexample to C6 as stated: the Copy item restores successfully
(one restored entry) and its trace contains no removal of the old path at
all — the old-path cleanup never runs for kind C. -/
theorem copy_keeps_old_path_counterexample :
    (processItem (fun b => b) (fun b => b) ['/', 'r'] c6CopyItem).2 =
        .ok ⟨1, 0, 0⟩ ∧
      FsOp.remove (posixResolve ['/', 'r'] ("old.txt".toList)) ∉
        (processItem (fun b => b) (fun b => b) ['/', 'r'] c6CopyItem).1 := by
  decide

/-- C6 (amended).  For every Rename item carrying a truthy old path, with
both paths passing the safety check, the removal of the old path is the
first filesystem operation of the item — in particular it precedes any
write of the new path's content.  (Remove is best-effort in the
interpreter: a missing target is ignored.)  Copy items do not remove their
old path, as the counterexample shows. -/
theorem rename_removes_old_path_first (decBr decGz : List Nat → List Nat)
    (root : List Char) (it : RItem) (relPath oldRel : List Char)
    (hk : jsCoalesce it.k it.kind = some "R")
    (hot : jsTruthy (jsCoalesce it.o it.oldPath) = true)
    (ho : assertSafeRepoRelativePath (jsCoalesce it.o it.oldPath) = .ok oldRel)
    (hp : assertSafeRepoRelativePath (itemRawPath it) = .ok relPath) :
    (processItem decBr decGz root it).1.head? =
      some (FsOp.remove (posixResolve root oldRel)) := by
  have hpre : renameCleanupOps root it =
      .ok [FsOp.remove (posixResolve root oldRel)] := by
    unfold renameCleanupOps
    rw [if_pos ⟨hk, hot⟩, ho]
  unfold processItem
  rw [hp]
  simp only [hk, hpre]
  rw [if_neg (by simp)]
  split
  · simp
  · split
    · split
      · simp
      · simp
    · split
      · simp
      · simp

/-- Witness for the amended C6 at a concrete Rename. -/
theorem rename_removes_old_path_first_witness :
    (processItem (fun b => b) (fun b => b) ['/', 'r'] c6RenameItem).1.head? =
      some (FsOp.remove (posixResolve ['/', 'r'] ("old.txt".toList))) :=
  rename_removes_old_path_first (fun b => b) (fun b => b) ['/', 'r']
    c6RenameItem ("new.txt".toList) ("old.txt".toList)
    (by decide) (by decide) (by decide) (by decide)

/-! ## Claim C10: permission restoration for regular files -/

/-- C10.  For every regular-file item (not a Delete, not flagged submodule,
not a symlink mode, content present, old-path cleanup succeeding), the
replay emits: the cleanup operations, then mkdir of the parent, then the
content write, then — only when the stored mode string is truthy and
parses as octal — a chmod whose argument is the parsed value masked to the
low nine bits (the JS mode & 511 equals the value modulo 512); the item
counts as one restored entry in every case.  Moreover the written file
content survives the rest of the trace whether or not the chmod call
succeeds (chmodOk false models the swallowed chmod failure), so a missing
or unparsable mode or a failing chmod never affects the restore. -/
theorem regular_file_restore (decBr decGz : List Nat → List Nat)
    (root : List Char) (it : RItem) (relPath : List Char)
    (preOps : List FsOp) (cb64 : String)
    (hp : assertSafeRepoRelativePath (itemRawPath it) = .ok relPath)
    (hk : ¬ jsCoalesce it.k it.kind = some "D")
    (hpre : renameCleanupOps root it = .ok preOps)
    (hsm : it.sm = false) (hsm2 : it.submodule = false)
    (hmode : ¬ jsCoalesce it.m it.mode = some "120000")
    (hc : jsCoalesce it.c it.contentBase64 = some cb64) :
    processItem decBr decGz root it =
      (preOps ++ [FsOp.mkdirParents (posixDirname (posixResolve root relPath)),
        FsOp.writeFile (posixResolve root relPath)
          (if jsTruthy it.c = true then decodeContent decBr decGz it
           else jsBase64Decode cb64)] ++
        (match tryChmodMode (jsCoalesce it.m it.mode) with
         | some mNat => [FsOp.chmod (posixResolve root relPath) mNat]
         | none => []), .ok ⟨1, 0, 0⟩) ∧
    (∀ fs : FS, ∀ chmodOk : Bool,
      fsFileContent (posixResolve root relPath)
          (applyOps chmodOk fs (processItem decBr decGz root it).1) =
        some (if jsTruthy it.c = true then decodeContent decBr decGz it
              else jsBase64Decode cb64)) := by
  have h1 : processItem decBr decGz root it =
      (preOps ++ [FsOp.mkdirParents (posixDirname (posixResolve root relPath)),
        FsOp.writeFile (posixResolve root relPath)
          (if jsTruthy it.c = true then decodeContent decBr decGz it
           else jsBase64Decode cb64)] ++
        (match tryChmodMode (jsCoalesce it.m it.mode) with
         | some mNat => [FsOp.chmod (posixResolve root relPath) mNat]
         | none => []), .ok ⟨1, 0, 0⟩) := by
    simp only [processItem, hp, hpre, hsm, hsm2, Bool.or_self]
    rw [if_neg hk]
    rw [if_neg (Bool.false_ne_true)]
    rw [if_neg hmode]
    simp only [hc]
  refine ⟨h1, ?_⟩
  intro fs chmodOk
  rw [h1]
  simp only [applyOps_append]
  set fs1 := applyOps chmodOk fs preOps with hfs1
  set content := (if jsTruthy it.c = true then decodeContent decBr decGz it
    else jsBase64Decode cb64) with hcontent
  set absPath := posixResolve root relPath with habs
  have hwrite : ∃ m0, applyOps chmodOk fs1
      [FsOp.mkdirParents (posixDirname absPath),
        FsOp.writeFile absPath content] =
      fsSet absPath (FsEntry.file content m0) fs1 := by
    simp only [applyOps, applyOp]
    cases hg : fsGet absPath fs1 with
    | none => exact ⟨none, rfl⟩
    | some e =>
      cases e with
      | file c0 m0 => exact ⟨m0, rfl⟩
      | link t0 => exact ⟨none, rfl⟩
  obtain ⟨m0, hm0⟩ := hwrite
  rw [hm0]
  cases htc : tryChmodMode (jsCoalesce it.m it.mode) with
  | none =>
    simp only [applyOps, fsFileContent, fsGet_fsSet_self]
  | some mNat =>
    cases chmodOk with
    | false => simp [applyOps, applyOp, fsFileContent, fsGet_fsSet_self]
    | true => simp [applyOps, applyOp, fsFileContent, fsGet_fsSet_self]

/-- Witness for C10 at a concrete file item. -/
theorem regular_file_restore_witness :
    processItem (fun b => b) (fun b => b) ['/', 'r'] c10Item =
      ([] ++ [FsOp.mkdirParents (posixDirname (posixResolve ['/', 'r']
          ("f.txt".toList))),
        FsOp.writeFile (posixResolve ['/', 'r'] ("f.txt".toList))
          (if jsTruthy c10Item.c = true then
            decodeContent (fun b => b) (fun b => b) c10Item
           else jsBase64Decode "")] ++
        (match tryChmodMode (jsCoalesce c10Item.m c10Item.mode) with
         | some mNat => [FsOp.chmod (posixResolve ['/', 'r']
             ("f.txt".toList)) mNat]
         | none => []), .ok ⟨1, 0, 0⟩) :=
  (regular_file_restore (fun b => b) (fun b => b) ['/', 'r'] c10Item
    ("f.txt".toList) [] ""
    (by decide) (by decide) (by decide) (by decide) (by decide)
    (by decide) (by decide)).1

/-- C4.  parseBackupText dispatches exactly as specified: a trimmed text
with the literal SSP1 tag decodes through the plain path regardless of the
password; otherwise, when the base64 decoding yields at least four bytes
equal to the encryption magic, a password is required — a falsy password
raises the password-required error, a truthy one reaches the encrypted
decoder; all other inputs fall back to the plain path.  The final conjunct
pins the meaning of the magic sniff. -/
theorem jsTrim_dropWhile_idem (p : Char → Bool) :
    ∀ l : List Char, (l.dropWhile p).dropWhile p = l.dropWhile p := by
  intro l
  induction l with
  | nil => rfl
  | cons a xs ih =>
    by_cases ha : p a = true
    · rw [List.dropWhile_cons_of_pos ha]
      exact ih
    · rw [List.dropWhile_cons_of_neg (by simpa using ha),
        List.dropWhile_cons_of_neg (by simpa using ha)]

theorem dropWhile_length_le (p : Char → Bool) :
    ∀ l : List Char, (l.dropWhile p).length ≤ l.length := by
  intro l
  induction l with
  | nil => simp
  | cons a xs ih =>
    by_cases ha : p a = true
    · rw [List.dropWhile_cons_of_pos ha]
      exact le_trans ih (by simp)
    · rw [List.dropWhile_cons_of_neg (by simpa using ha)]

theorem head_not_sat_of_dropWhile_eq_self {p : Char → Bool} {c : Char}
    {rest : List Char} (h : List.dropWhile p (c :: rest) = c :: rest) :
    p c = false := by
  by_cases hc : p c = true
  · rw [List.dropWhile_cons_of_pos hc] at h
    have hlen := congrArg List.length h
    have hle := dropWhile_length_le p rest
    simp only [List.length_cons] at hlen
    omega
  · simpa using hc

/-- Trimming is idempotent, so the extra trim inside isEncryptedText is a
no-op on the already-trimmed text parseBackupText hands it. -/
theorem jsTrim_idem (l : List Char) : jsTrim (jsTrim l) = jsTrim l := by
  unfold jsTrim
  have hM : (l.dropWhile isJsWhitespace).dropWhile isJsWhitespace =
      l.dropWhile isJsWhitespace := jsTrim_dropWhile_idem isJsWhitespace l
  set M := l.dropWhile isJsWhitespace with hMdef
  set R := M.reverse.dropWhile isJsWhitespace with hRdef
  have hRR : R.dropWhile isJsWhitespace = R := by
    rw [hRdef]
    exact jsTrim_dropWhile_idem isJsWhitespace M.reverse
  have h1 : R.reverse.dropWhile isJsWhitespace = R.reverse := by
    cases hsh : R.reverse with
    | nil => rfl
    | cons c t =>
      have hsplit : M.reverse = M.reverse.takeWhile isJsWhitespace ++ R := by
        rw [hRdef]
        exact (List.takeWhile_append_dropWhile isJsWhitespace M.reverse).symm
      have hMeq : M = R.reverse ++ (M.reverse.takeWhile isJsWhitespace).reverse := by
        have := congrArg List.reverse hsplit
        rw [List.reverse_reverse, List.reverse_append] at this
        exact this
      rw [hsh] at hMeq
      have hMd : M.dropWhile isJsWhitespace = M := hM
      rw [hMeq, List.cons_append] at hMd
      have hpc : isJsWhitespace c = false :=
        head_not_sat_of_dropWhile_eq_self hMd
      rw [List.dropWhile_cons_of_neg (by simp [hpc])]
  rw [h1, List.reverse_reverse, hRR]

/-- C4.  parseBackupText dispatches exactly as specified: a trimmed text
with the literal SSP1 tag decodes through the plain path regardless of the
password; otherwise, when the base64 decoding yields at least four bytes
equal to the encryption magic, a password is required — a falsy password
raises the password-required error, a truthy one reaches the encrypted
decoder; all other inputs fall back to the plain path.  The final conjunct
pins the meaning of the magic sniff. -/
theorem parseBackupText_dispatch (decBrotli : List Nat → Option (List Nat))
    (decrypt : List Nat → List Nat → List Nat → List Nat → String →
      Option (List Nat))
    (text : String) (password : Option String) :
    (hasPre plainTag (jsTrim text.toList) = true →
      parseBackupText decBrotli decrypt text password =
        decodePlainFromText decBrotli (jsTrim text.toList)) ∧
    (hasPre plainTag (jsTrim text.toList) = false →
      isEncryptedText (jsTrim text.toList) = true →
      ((jsTruthy password = false →
        parseBackupText decBrotli decrypt text password =
          .error .passwordRequired) ∧
       (∀ pw, password = some pw → ¬ pw = "" →
        parseBackupText decBrotli decrypt text password =
          decodeEncryptedFromText decBrotli decrypt
            (jsTrim text.toList) pw))) ∧
    (hasPre plainTag (jsTrim text.toList) = false →
      isEncryptedText (jsTrim text.toList) = false →
      parseBackupText decBrotli decrypt text password =
        decodePlainFromText decBrotli (jsTrim text.toList)) ∧
    (isEncryptedText (jsTrim text.toList) = true ↔
      4 ≤ (jsBase64DecodeL (jsTrim text.toList)).length ∧
        (jsBase64DecodeL (jsTrim text.toList)).take 4 = magicBytes) := by
  simp only [String.toList]
  refine ⟨?_, ?_, ?_, ?_⟩
  · intro h1
    simp only [parseBackupText, String.toList]
    rw [if_pos h1]
  · intro h1 h2
    have h1n : ¬ hasPre plainTag (jsTrim text.data) = true := by
      rw [h1]
      exact Bool.false_ne_true
    constructor
    · intro hpw
      simp only [parseBackupText, String.toList]
      rw [if_neg h1n, if_pos h2, if_pos hpw]
    · intro pw hpw hne
      have hpwt : ¬ jsTruthy password = false := by
        rw [hpw]
        simp [jsTruthy, hne]
      simp only [parseBackupText, String.toList]
      rw [if_neg h1n, if_pos h2, if_neg hpwt, hpw]
      rfl
  · intro h1 h2
    have h1n : ¬ hasPre plainTag (jsTrim text.data) = true := by
      rw [h1]
      exact Bool.false_ne_true
    have h2n : ¬ isEncryptedText (jsTrim text.data) = true := by
      rw [h2]
      exact Bool.false_ne_true
    simp only [parseBackupText, String.toList]
    rw [if_neg h1n, if_neg h2n]
  · have key : isEncryptedText (jsTrim text.data) =
        (if (jsBase64DecodeL (jsTrim text.data)).length < 4 then false
         else decide ((jsBase64DecodeL (jsTrim text.data)).take 4 =
           magicBytes)) := by
      unfold isEncryptedText
      rw [jsTrim_idem]
    rw [key]
    by_cases hlen : (jsBase64DecodeL (jsTrim text.data)).length < 4
    · rw [if_pos hlen]
      constructor
      · intro h
        exact absurd h (by simp)
      · intro h
        omega
    · rw [if_neg hlen]
      constructor
      · intro h
        exact ⟨by omega, of_decide_eq_true h⟩
      · intro h
        exact decide_eq_true h.2

/-- Witness for C4: the three dispatch outcomes at concrete texts — a
tagged text decodes plain despite a password, a text whose base64 bytes
begin with the magic demands a password, and a short garbage text falls
back to plain. -/
theorem parseBackupText_dispatch_witness :
    (parseBackupText (fun _ => none) (fun _ _ _ _ _ => none)
        "SSP1:QQ" (some "pw") =
      decodePlainFromText (fun _ => none) (jsTrim "SSP1:QQ".toList)) ∧
    (parseBackupText (fun _ => none) (fun _ _ _ _ _ => none)
        "U1NCSw==" none = .error .passwordRequired) ∧
    (parseBackupText (fun _ => none) (fun _ _ _ _ _ => none)
        "hello" none =
      decodePlainFromText (fun _ => none) (jsTrim "hello".toList)) :=
  ⟨(parseBackupText_dispatch (fun _ => none) (fun _ _ _ _ _ => none)
      "SSP1:QQ" (some "pw")).1 (by decide),
   ((parseBackupText_dispatch (fun _ => none) (fun _ _ _ _ _ => none)
      "U1NCSw==" none).2.1 (by decide) (by decide)).1 (by decide),
   (parseBackupText_dispatch (fun _ => none) (fun _ _ _ _ _ => none)
      "hello" none).2.2.1 (by decide) (by decide)⟩

/-- Every completed task resolves to the compressed form of its own
payload, whatever position the completion takes in the schedule: results
reattach by task identity, not by completion order. -/
theorem poolResolve_mem (brotli : List Nat → List Nat)
    (payloads : List (List Nat)) :
    ∀ (schedule : List Nat) (id : Nat), id ∈ schedule →
      poolResolve brotli payloads schedule id =
        (payloads.get? (id - 1)).map brotli := by
  intro schedule
  induction schedule with
  | nil =>
    intro id h
    cases h
  | cons i rest ih =>
    intro id h
    by_cases hi : i = id
    · subst hi
      simp [poolResolve, List.find?]
    · have hmem : id ∈ rest := by
        rcases List.mem_cons.mp h with h2 | h2
        · exact absurd h2.symm hi
        · exact h2
      have htail := ih id hmem
      simp only [poolResolve, List.map_cons] at htail ⊢
      rw [List.find?_cons_of_neg _ (by simpa using hi)]
      exact htail

theorem collectConcGo_eq (pack : GRecord → String)
    (brotli : List Nat → List Nat) (src : GitSource)
    (cfg : ConcurrencyConfig) (upc : Bool) (payloads : List (List Nat))
    (schedule : List Nat)
    (hsched : ∀ id, 1 ≤ id → id ≤ payloads.length → id ∈ schedule) :
    ∀ (items : List GitItem) (k : Nat),
      poolTaskPayloads src cfg upc items = payloads.drop k →
      collectConcGo pack brotli src cfg upc payloads schedule items (k + 1) =
        some (collectFromGitIndexSequential pack brotli
          { staged := items, indexMode := src.indexMode,
            gitShow := src.gitShow } none) := by
  intro items
  induction items with
  | nil =>
    intro k hpay
    simp [collectConcGo, collectFromGitIndexSequential, filterStaged]
  | cons item rest ih =>
    intro k hpay
    simp only [poolTaskPayloads, List.filterMap_cons] at hpay
    by_cases hD : item.kind = "D"
    · simp [itemContentForPool, hD] at hpay
      simp [collectConcGo, hD, ih k hpay, collectFromGitIndexSequential,
        filterStaged]
    · cases hm : src.indexMode item.path with
      | some mode =>
        by_cases h160 : mode = "160000"
        · subst h160
          simp [itemContentForPool, hD, hm] at hpay
          simp [collectConcGo, hD, hm, ih k hpay,
            collectFromGitIndexSequential, filterStaged]
        · by_cases h120 : mode = "120000"
          · subst h120
            simp [itemContentForPool, hD, hm] at hpay
            simp [collectConcGo, hD, hm, ih k hpay,
              collectFromGitIndexSequential, filterStaged]
          · by_cases hq : usesPool cfg upc (src.gitShow item.path) = true
            · simp [itemContentForPool, hD, hm, h160, h120, hq] at hpay
              have h0 := List.getElem?_drop payloads k 0
              rw [← hpay] at h0
              simp only [List.getElem?_cons_zero, Nat.add_zero] at h0
              have hget : payloads.get? k = some (src.gitShow item.path) := by
                rw [List.get?_eq_getElem?]
                exact h0.symm
              have hlt : k < payloads.length := by
                rcases List.get?_eq_some.mp hget with ⟨hl, _⟩
                exact hl
              have hres := poolResolve_mem brotli payloads schedule (k + 1)
                (hsched (k + 1) (by omega) (by omega))
              have hrest : poolTaskPayloads src cfg upc rest =
                  payloads.drop (k + 1) := by
                have hdd : payloads.drop (k + 1) = (payloads.drop k).drop 1 := by
                  rw [List.drop_drop]
                rw [hdd, ← hpay]
                rfl
              simp [collectConcGo, hD, hm, h160, h120, hq, hres, h0.symm,
                ih (k + 1) hrest, collectFromGitIndexSequential, filterStaged]
            · simp [itemContentForPool, hD, hm, h160, h120, hq] at hpay
              simp [collectConcGo, hD, hm, h160, h120, hq, ih k hpay,
                collectFromGitIndexSequential, filterStaged]
      | none =>
        by_cases hq : usesPool cfg upc (src.gitShow item.path) = true
        · simp [itemContentForPool, hD, hm, hq] at hpay
          have h0 := List.getElem?_drop payloads k 0
          rw [← hpay] at h0
          simp only [List.getElem?_cons_zero, Nat.add_zero] at h0
          have hget : payloads.get? k = some (src.gitShow item.path) := by
            rw [List.get?_eq_getElem?]
            exact h0.symm
          have hlt : k < payloads.length := by
            rcases List.get?_eq_some.mp hget with ⟨hl, _⟩
            exact hl
          have hres := poolResolve_mem brotli payloads schedule (k + 1)
            (hsched (k + 1) (by omega) (by omega))
          have hrest : poolTaskPayloads src cfg upc rest =
              payloads.drop (k + 1) := by
            have hdd : payloads.drop (k + 1) = (payloads.drop k).drop 1 := by
              rw [List.drop_drop]
            rw [hdd, ← hpay]
            rfl
          simp [collectConcGo, hD, hm, hq, hres, h0.symm, ih (k + 1) hrest,
            collectFromGitIndexSequential, filterStaged]
        · simp [itemContentForPool, hD, hm, hq] at hpay
          simp [collectConcGo, hD, hm, hq, ih k hpay,
            collectFromGitIndexSequential, filterStaged]

/-- C8.  For the same git source and the same exclude matcher, the
concurrent collection pipeline produces exactly the item sequence of the
sequential variant, for every completion schedule of the worker pool that
delivers each dispatched task exactly once (in any order): the final
sequence is the source-enumeration order, independent of worker completion
order.  The equality is on the packed items themselves, which is stronger
than the claim's comparison after decompression by path and content. -/
theorem collect_concurrent_matches_sequential (pack : GRecord → String)
    (brotli : List Nat → List Nat) (src : GitSource)
    (matcher : Option (String → Bool)) (cfg : ConcurrencyConfig)
    (schedule : List Nat)
    (hsched : schedule.Perm (List.range' 1
      (poolTaskPayloads src cfg
        (cfg.enabled &&
          decide (cfg.fileCountThreshold ≤ (filterStaged matcher src.staged).length))
        (filterStaged matcher src.staged)).length)) :
    collectFromGitIndexConcurrent pack brotli src matcher cfg schedule =
      some (collectFromGitIndexSequential pack brotli src matcher) := by
  unfold collectFromGitIndexConcurrent
  have hmem : ∀ id, 1 ≤ id →
      id ≤ (poolTaskPayloads src cfg
        (cfg.enabled &&
          decide (cfg.fileCountThreshold ≤ (filterStaged matcher src.staged).length))
        (filterStaged matcher src.staged)).length → id ∈ schedule := by
    intro id h1 h2
    rw [hsched.mem_iff]
    rw [List.mem_range']
    exact ⟨id - 1, by omega, by omega⟩
  have h := collectConcGo_eq pack brotli src cfg
    (cfg.enabled &&
      decide (cfg.fileCountThreshold ≤ (filterStaged matcher src.staged).length))
    (poolTaskPayloads src cfg
      (cfg.enabled &&
        decide (cfg.fileCountThreshold ≤ (filterStaged matcher src.staged).length))
      (filterStaged matcher src.staged))
    schedule hmem (filterStaged matcher src.staged) 0 (by simp)
  rw [show (0 : Nat) + 1 = 1 from rfl] at h
  rw [h]
  have hsame : collectFromGitIndexSequential pack brotli
      { staged := filterStaged matcher src.staged,
        indexMode := src.indexMode, gitShow := src.gitShow } none =
      collectFromGitIndexSequential pack brotli src matcher := by
    unfold collectFromGitIndexSequential
    have hf : filterStaged none (filterStaged matcher src.staged) =
        filterStaged matcher src.staged := rfl
    rw [hf]
  rw [hsame]

/-- Witness for C8: both items are dispatched to the pool and the workers
complete in reverse order (schedule 2 then 1), yet the output equals the
sequential collection. -/
theorem collect_concurrent_matches_sequential_witness :
    collectFromGitIndexConcurrent (fun r => r.p) (fun b => 0 :: b)
        c8Source none c8Config [2, 1] =
      some (collectFromGitIndexSequential (fun r => r.p) (fun b => 0 :: b)
        c8Source none) :=
  collect_concurrent_matches_sequential (fun r => r.p) (fun b => 0 :: b)
    c8Source none c8Config [2, 1] (by decide)

end Snapstash
